import Mathlib

/-!
Verification of the `actix_diesel_cache` cache actor (`src/lib.rs`).

The actor caches all rows of one database table in a `HashMap` behind an
`Arc<RwLock<...>>`.  We embed the actor shallowly:

* the `HashMap<C::Id, C>` becomes an association list `List (Id × C)` with
  insert-or-overwrite semantics (`insertAL`) and key lookup (`lookupAL`);
* the `Arc<RwLock<HashMap<..>>>` allocation identity is modelled by a heap of
  tables (`List (List (Id × C))`): every `Arc::new` appends a fresh table and
  the actor's `cache` field stores the index of the current allocation, so
  handle sharing (`Arc::clone`) and in-place mutation through the lock are
  observable;
* store I/O (`Table::table().load`, `insert_into(..).execute`,
  `insert_into(..).get_result`) is external (diesel); each handler takes the
  store's response for the calls it makes as an explicit `Except`-valued
  oracle argument, exactly where the Rust code performs the call;
* `diesel::result::Error` is an opaque type parameter `E`.

Every definition mirrors the corresponding Rust item, named as in the source.
-/

namespace ActixDieselCache

variable {Id C E : Type} [DecidableEq Id]

/-- `HashMap::get` on the association-list model: the value bound to `k`. -/
def lookupAL (k : Id) : List (Id × C) → Option C
  | [] => none
  | (k', v) :: rest => if k' = k then some v else lookupAL k rest

/-- `HashMap::insert` on the association-list model: overwrite the binding of
`k` in place if present, otherwise append it. -/
def insertAL (k : Id) (v : C) : List (Id × C) → List (Id × C)
  | [] => [(k, v)]
  | (k', v') :: rest => if k' = k then (k, v) :: rest else (k', v') :: insertAL k v rest

/-- The map-building loop of `Cache::read_all` (lib.rs 88-96): key every loaded
row under its own `get_id`, starting from an empty map. -/
def buildTable (getId : C → Id) (rows : List C) : List (Id × C) :=
  rows.foldl (fun out it => insertAL (getId it) it out) []

/-- `Cache::read_all` (lib.rs 88-96): run the store's full-table load and build
the `Id → Entity` map from the returned rows; a load error is propagated. -/
def read_all (getId : C → Id) (loadRes : Except E (List C)) :
    Except E (List (Id × C)) :=
  match loadRes with
  | .error e => .error e
  | .ok vec => .ok (buildTable getId vec)

/-- State of `CacheDbActor` (lib.rs 137-153).  `heap` records every table ever
allocated behind an `Arc<RwLock<..>>`; `cacheAddr` is the index of the
allocation the `cache` field currently points at; `is_valid` is the freshness
flag. -/
structure ActorState (Id C : Type) where
  heap : List (List (Id × C))
  cacheAddr : Nat
  is_valid : Bool
deriving DecidableEq

/-- The table stored at allocation `a` (out-of-range reads give the empty
table; reachable states never index out of range). -/
def heapAt : List (List (Id × C)) → Nat → List (Id × C)
  | [], _ => []
  | t :: _, 0 => t
  | _ :: rest, n + 1 => heapAt rest n

/-- The table a handle on allocation `a` of state `s` currently sees. -/
def tableAt (s : ActorState Id C) (a : Nat) : List (Id × C) :=
  heapAt s.heap a

/-- The table behind the actor's own `cache` field. -/
def currentTable (s : ActorState Id C) : List (Id × C) :=
  tableAt s s.cacheAddr

/-- `CacheDbActor::update` (lib.rs 176-179):
`self.cache = Arc::new(RwLock::new(C::read_all(&self.conn)?))`.
On a load error nothing is assigned and the error propagates; on success a
brand-new allocation holding the freshly built table replaces the `cache`
field.  Note that `is_valid` is not touched on either path. -/
def update (getId : C → Id) (s : ActorState Id C) (loadRes : Except E (List C)) :
    Except E (ActorState Id C) :=
  match read_all getId loadRes with
  | .error e => .error e
  | .ok m => .ok { s with heap := s.heap ++ [m], cacheAddr := s.heap.length }

/-- `CacheDbActor::update_one` (lib.rs 181-184): take the write lock and
`HashMap::insert (id, v)` into the current allocation, returning the previous
binding of `id` as `HashMap::insert` does. -/
def update_one (s : ActorState Id C) (id : Id) (v : C) :
    Option C × ActorState Id C :=
  (lookupAL id (currentTable s),
   { s with heap := s.heap.set s.cacheAddr (insertAL id v (currentTable s)) })

/-- `CacheDbActor::get` (lib.rs 186-189): read-lock the current table and
clone out the entry for `id`. -/
def getCached (s : ActorState Id C) (id : Id) : Option C :=
  lookupAL id (currentTable s)

/-- `CacheDbActor::new` (lib.rs 164-174): start from a default (empty) cache
allocation with `is_valid = true`, then run `update()?`; a load failure makes
the constructor fail. -/
def new (getId : C → Id) (loadRes : Except E (List C)) :
    Except E (ActorState Id C) :=
  update getId { heap := [[]], cacheAddr := 0, is_valid := true } loadRes

/-- `CacheDbActor::timer_update` (lib.rs 191-195): `let _ = self.update();`
followed unconditionally by rescheduling itself after
`Duration::from_secs(60)`.  The returned `Nat` is the delay, in seconds, of
the next scheduled firing; the load error, if any, is discarded. -/
def timer_update (getId : C → Id) (s : ActorState Id C)
    (loadRes : Except E (List C)) : ActorState Id C × Nat :=
  match update getId s loadRes with
  | .error _ => (s, 60)
  | .ok s' => (s', 60)

/-- `Handler<GetAll>::handle` (lib.rs 223-230): if the cache is not valid,
reload first (propagating a failure); then return `Arc::clone(&self.cache)`,
i.e. the current allocation index, sharing the lock with the caller. -/
def handleGetAll (getId : C → Id) (s : ActorState Id C)
    (loadRes : Except E (List C)) : Except E Nat × ActorState Id C :=
  if !s.is_valid then
    match update getId s loadRes with
    | .error e => (.error e, s)
    | .ok s' => (.ok s'.cacheAddr, s')
  else
    (.ok s.cacheAddr, s)

/-- `Handler<Save<W>>::handle` (lib.rs 278-283): set `is_valid = false`, run
the store insert (`C::write_one`), and on success run `update()?`.
`insertRes` is the store's response to the insert (rows affected),
`loadRes` the response to the reload's full-table load. -/
def handleSave (getId : C → Id) (s : ActorState Id C)
    (insertRes : Except E Nat) (loadRes : Except E (List C)) :
    Except E Unit × ActorState Id C :=
  let s1 := { s with is_valid := false }
  match insertRes with
  | .error e => (.error e, s1)
  | .ok _ =>
    match update getId s1 loadRes with
    | .error e => (.error e, s1)
    | .ok s2 => (.ok (), s2)

/-- `Handler<SaveWithResult>::handle` (lib.rs 254-262): run the returning
insert (`C::write_one_with_result`); on success upsert the returned row into
the cache under `C::get_id(&row)` and return the row.  `insertRes` is the
store's response: the persisted row, or an error. -/
def handleSaveWithResult (getId : C → Id) (s : ActorState Id C)
    (insertRes : Except E C) : Except E C × ActorState Id C :=
  match insertRes with
  | .error e => (.error e, s)
  | .ok row => (.ok row, (update_one s (getId row) row).2)

/-- `Handler<Get>::handle` (lib.rs 296-304): in-memory lookup; on a hit return
it at once, on a miss run `update()?` and look up again.  The final `Nat`
counts the reload attempts (store loads) the call performed. -/
def handleGet (getId : C → Id) (s : ActorState Id C) (id : Id)
    (loadRes : Except E (List C)) :
    Except E (Option C) × ActorState Id C × Nat :=
  match getCached s id with
  | some out => (.ok (some out), s, 0)
  | none =>
    match update getId s loadRes with
    | .error e => (.error e, s, 1)
    | .ok s' => (.ok (getCached s' id), s', 1)

/-! ### Basic lemmas about the map and heap model -/

theorem lookupAL_insertAL_self (k : Id) (v : C) (m : List (Id × C)) :
    lookupAL k (insertAL k v m) = some v := by
  induction m with
  | nil => simp [insertAL, lookupAL]
  | cons p rest ih =>
    obtain ⟨k', v'⟩ := p
    by_cases h : k' = k
    · simp [insertAL, h, lookupAL]
    · simp [insertAL, h, lookupAL, ih]

theorem lookupAL_insertAL_ne (k k' : Id) (v : C) (m : List (Id × C)) (h : k' ≠ k) :
    lookupAL k' (insertAL k v m) = lookupAL k' m := by
  induction m with
  | nil => simp [insertAL, lookupAL, Ne.symm h]
  | cons p rest ih =>
    obtain ⟨k'', v''⟩ := p
    by_cases hk : k'' = k
    · subst hk
      simp [insertAL, lookupAL, Ne.symm h]
    · simp only [insertAL, if_neg hk, lookupAL]
      by_cases hk' : k'' = k'
      · simp [hk']
      · simp [hk', ih]

theorem mem_insertAL (k : Id) (v : C) (m : List (Id × C)) (p : Id × C)
    (hp : p ∈ insertAL k v m) : p = (k, v) ∨ p ∈ m := by
  induction m with
  | nil => simpa [insertAL] using hp
  | cons q rest ih =>
    obtain ⟨k', v'⟩ := q
    by_cases h : k' = k
    · simp only [insertAL, if_pos h, List.mem_cons] at hp
      rcases hp with hp | hp
      · exact Or.inl hp
      · exact Or.inr (List.mem_cons_of_mem _ hp)
    · simp only [insertAL, if_neg h, List.mem_cons] at hp
      rcases hp with hp | hp
      · exact Or.inr (by simp [hp])
      · rcases ih hp with hp' | hp'
        · exact Or.inl hp'
        · exact Or.inr (List.mem_cons_of_mem _ hp')

theorem foldl_insertAL_keyed (getId : C → Id) (rows : List C) (acc : List (Id × C))
    (hacc : ∀ p ∈ acc, getId p.2 = p.1) :
    ∀ p ∈ rows.foldl (fun out it => insertAL (getId it) it out) acc, getId p.2 = p.1 := by
  induction rows generalizing acc with
  | nil => exact hacc
  | cons r rest ih =>
    intro p hp
    refine ih _ (fun q hq => ?_) p hp
    rcases mem_insertAL _ _ _ _ hq with h | h
    · subst h; rfl
    · exact hacc q h

theorem buildTable_keyed (getId : C → Id) (rows : List C) :
    ∀ p ∈ buildTable getId rows, getId p.2 = p.1 :=
  foldl_insertAL_keyed getId rows [] (by simp)

theorem buildTable_append_one (getId : C → Id) (rows : List C) (r : C) :
    buildTable getId (rows ++ [r]) = insertAL (getId r) r (buildTable getId rows) := by
  simp [buildTable, List.foldl_append]

omit [DecidableEq Id] in
theorem heapAt_append_lt (l l' : List (List (Id × C))) (a : Nat) (h : a < l.length) :
    heapAt (l ++ l') a = heapAt l a := by
  induction l generalizing a with
  | nil => exact absurd h (Nat.not_lt_zero a)
  | cons t rest ih =>
    cases a with
    | zero => rfl
    | succ n => exact ih n (Nat.lt_of_succ_lt_succ (by simpa using h))

omit [DecidableEq Id] in
theorem heapAt_append_length (l : List (List (Id × C))) (x : List (Id × C)) :
    heapAt (l ++ [x]) l.length = x := by
  induction l with
  | nil => rfl
  | cons t rest ih => simpa using ih

omit [DecidableEq Id] in
theorem heapAt_set_self (l : List (List (Id × C))) (a : Nat) (x : List (Id × C))
    (h : a < l.length) : heapAt (l.set a x) a = x := by
  induction l generalizing a with
  | nil => exact absurd h (Nat.not_lt_zero a)
  | cons t rest ih =>
    cases a with
    | zero => rfl
    | succ n => exact ih n (Nat.lt_of_succ_lt_succ (by simpa using h))

omit [DecidableEq Id] in
theorem heapAt_set_ne (l : List (List (Id × C))) (a b : Nat) (x : List (Id × C))
    (h : b ≠ a) : heapAt (l.set a x) b = heapAt l b := by
  induction l generalizing a b with
  | nil => simp [List.set]
  | cons t rest ih =>
    cases a with
    | zero =>
      cases b with
      | zero => exact absurd rfl h
      | succ m => rfl
    | succ n =>
      cases b with
      | zero => rfl
      | succ m => exact ih n m (fun hm => h (by simp [hm]))

theorem currentTable_update_ok (getId : C → Id) (s : ActorState Id C)
    (rows : List C) (s' : ActorState Id C)
    (h : update getId s (Except.ok rows : Except E (List C)) = .ok s') :
    currentTable s' = buildTable getId rows := by
  simp only [update, read_all, Except.ok.injEq] at h
  subst h
  simp [currentTable, tableAt, heapAt_append_length]

theorem update_ok_eq (getId : C → Id) (s : ActorState Id C) (rows : List C) :
    update getId s (Except.ok rows : Except E (List C)) =
      .ok { s with heap := s.heap ++ [buildTable getId rows],
                   cacheAddr := s.heap.length } := by
  simp [update, read_all]

/-! ### Claim theorems -/

/-- C1 (code bug): the claim says that after a Save whose insert and reload
both succeed, the freshness flag is set back to `true`.  The code sets
`is_valid = false` at the start of the handler (lib.rs 279), but neither
`update` (lib.rs 176-179) nor any other code path ever assigns
`is_valid = true` again, so even a fully successful Save leaves the flag
`false`.  This theorem evaluates the code on that path: for every state and
every successful insert and reload response, the Save handler returns `Ok(())`
with the flag still `false`. -/
theorem C1_save_flag_never_restored (getId : C → Id) (s : ActorState Id C)
    (n : Nat) (rows : List C) :
    (handleSave getId s (Except.ok n) (Except.ok rows : Except E (List C))).1 = .ok ()
    ∧ (handleSave getId s (Except.ok n) (Except.ok rows : Except E (List C))).2.is_valid
        = false := by
  constructor <;> simp [handleSave, update, read_all]

/-- C2 (code bug): the claim says that after a successful GetAll the freshness
flag is `true` and the returned value is the shared cache handle.  The second
half holds: the handler returns `Arc::clone(&self.cache)`, i.e. exactly the
allocation the actor's `cache` field points at.  The first half fails: when
the flag is `false` and the reload succeeds, GetAll returns `Ok` but the flag
is still `false`, because `update` never sets it back to `true`. -/
theorem C2_getall_flag_not_set (getId : C → Id) (s : ActorState Id C)
    (rows : List C) (h : s.is_valid = false) :
    (handleGetAll getId s (Except.ok rows : Except E (List C))).1 =
        .ok (handleGetAll getId s (Except.ok rows : Except E (List C))).2.cacheAddr
    ∧ (handleGetAll getId s (Except.ok rows : Except E (List C))).2.is_valid = false := by
  constructor <;> simp [handleGetAll, h, update, read_all]

/-- Witness for C2 at a concrete stale state. -/
theorem C2_getall_flag_not_set_witness :
    (handleGetAll (fun n : Nat => n) ⟨[[]], 0, false⟩
        (Except.ok [5] : Except Unit (List Nat))).1 =
      .ok (handleGetAll (fun n : Nat => n) ⟨[[]], 0, false⟩
        (Except.ok [5] : Except Unit (List Nat))).2.cacheAddr
    ∧ (handleGetAll (fun n : Nat => n) ⟨[[]], 0, false⟩
        (Except.ok [5] : Except Unit (List Nat))).2.is_valid = false :=
  C2_getall_flag_not_set (fun n => n) ⟨[[]], 0, false⟩ [5] rfl

/-- C3 (confirmed): a Get on an id present in the cache returns it with no
store I/O (0 reloads, state untouched); a Get on a missing id performs
exactly one reload and retries the lookup once: if the reload fails the store
error is returned, and otherwise the result is `Ok` of the (possibly empty)
retried lookup — never an error and never a second reload. -/
theorem C3_get_fast_path_one_reload (getId : C → Id) (s : ActorState Id C)
    (i : Id) (loadRes : Except E (List C)) :
    match getCached s i, loadRes with
    | some c, _ => handleGet getId s i loadRes = (.ok (some c), s, 0)
    | none, .error e => handleGet getId s i loadRes = (.error e, s, 1)
    | none, .ok rows =>
        handleGet getId s i loadRes =
          (.ok (lookupAL i (buildTable getId rows)),
           { s with heap := s.heap ++ [buildTable getId rows],
                    cacheAddr := s.heap.length }, 1) := by
  rcases hci : getCached s i with _ | c
  · rcases loadRes with e | rows
    · simp [handleGet, hci, update, read_all]
    · have hci' := hci
      simp only [getCached, currentTable, tableAt] at hci'
      simp [handleGet, hci, hci', update, read_all, getCached, currentTable, tableAt,
        heapAt_append_length]
  · simp [handleGet, hci]

/-- C4 (confirmed): a failing reload is all-or-nothing.  `update` on a load
error returns that error and assigns nothing; each triggering operation
(GetAll when stale, Get on a miss, Save after its insert, the constructor)
returns the store error with the cache table, the allocation pointer and the
freshness flag exactly as they were before the attempt (Save's handler had
already set the flag false before the store calls).  A successful reload
replaces the whole table with the one built from the loaded rows, in a fresh
allocation — never a merge of old and new rows. -/
theorem C4_reload_all_or_nothing (getId : C → Id) (s : ActorState Id C)
    (e : E) (i : Id) (n : Nat) (rows : List C) :
    update getId s (Except.error e : Except E (List C)) = .error e
    ∧ handleGetAll getId s (Except.error e : Except E (List C)) =
        (if s.is_valid then (.ok s.cacheAddr, s) else (.error e, s))
    ∧ (match getCached s i with
       | some c => handleGet getId s i (Except.error e : Except E (List C)) =
           (.ok (some c), s, 0)
       | none => handleGet getId s i (Except.error e : Except E (List C)) =
           (.error e, s, 1))
    ∧ handleSave getId s (Except.ok n) (Except.error e : Except E (List C)) =
        (.error e, { s with is_valid := false })
    ∧ new getId (Except.error e : Except E (List C)) = .error e
    ∧ update getId s (Except.ok rows : Except E (List C)) =
        .ok { s with heap := s.heap ++ [buildTable getId rows],
                     cacheAddr := s.heap.length } := by
  refine ⟨by simp [update, read_all], ?_, ?_, ?_, ?_, ?_⟩
  · by_cases hv : s.is_valid <;> simp [handleGetAll, hv, update, read_all]
  · rcases hci : getCached s i with _ | c <;>
      simp [handleGet, hci, update, read_all]
  · simp [handleSave, update, read_all]
  · simp [new, update, read_all]
  · simp [update, read_all]

/-- C5 (confirmed): SaveWithResult on store success upserts the returned row
into the cache under that row's own id, in place — same allocation, same heap
size, no full reload — leaving every other key's lookup and the freshness
flag unchanged, and returns the row; on store failure it returns the error
with the whole state untouched. -/
theorem C5_save_with_result_upsert (getId : C → Id) (s : ActorState Id C)
    (row : C) (e : E) (hA : s.cacheAddr < s.heap.length) :
    handleSaveWithResult getId s (Except.ok row : Except E C) =
      (.ok row,
       { s with heap := s.heap.set s.cacheAddr (insertAL (getId row) row (currentTable s)) })
    ∧ (handleSaveWithResult getId s (Except.ok row : Except E C)).2.is_valid = s.is_valid
    ∧ (handleSaveWithResult getId s (Except.ok row : Except E C)).2.cacheAddr = s.cacheAddr
    ∧ (handleSaveWithResult getId s (Except.ok row : Except E C)).2.heap.length
        = s.heap.length
    ∧ getCached (handleSaveWithResult getId s (Except.ok row : Except E C)).2 (getId row)
        = some row
    ∧ (∀ k, k ≠ getId row →
        getCached (handleSaveWithResult getId s (Except.ok row : Except E C)).2 k
          = getCached s k)
    ∧ handleSaveWithResult getId s (Except.error e : Except E C) = (.error e, s) := by
  refine ⟨by simp [handleSaveWithResult, update_one], by simp [handleSaveWithResult, update_one],
    by simp [handleSaveWithResult, update_one], by simp [handleSaveWithResult, update_one],
    ?_, ?_, by simp [handleSaveWithResult]⟩
  · simp [handleSaveWithResult, update_one, getCached, currentTable, tableAt,
      heapAt_set_self _ _ _ hA, lookupAL_insertAL_self]
  · intro k hk
    simp [handleSaveWithResult, update_one, getCached, currentTable, tableAt,
      heapAt_set_self _ _ _ hA, lookupAL_insertAL_ne _ _ _ _ hk]

/-- Witness for C5 at a concrete in-range state. -/
theorem C5_save_with_result_upsert_witness :
    (0 : Nat) < 1
    ∧ getCached (handleSaveWithResult (fun n : Nat => n)
        ⟨[[(1, 10)]], 0, true⟩ (Except.ok 7 : Except Unit Nat)).2 7 = some 7 :=
  ⟨by decide,
   (C5_save_with_result_upsert (fun n => n) ⟨[[(1, 10)]], 0, true⟩ 7 ()
      (by decide)).2.2.2.2.1⟩

/-- C6 (confirmed): write visibility.  After a Save whose insert succeeded and
whose reload loaded the store rows now ending in the materialized row `r`, a
Get on `r`'s id answers `r` from memory with zero reloads and an unchanged
state; likewise after a SaveWithResult that returned `r`. -/
theorem C6_write_visibility (getId : C → Id) (s : ActorState Id C)
    (rows : List C) (r : C) (n : Nat) (hA : s.cacheAddr < s.heap.length)
    (loadRes loadRes' : Except E (List C)) :
    ((handleSave getId s (Except.ok n) (Except.ok (rows ++ [r]) : Except E (List C))).1
        = .ok ()
     ∧ handleGet getId
         (handleSave getId s (Except.ok n) (Except.ok (rows ++ [r]) : Except E (List C))).2
         (getId r) loadRes =
       (.ok (some r),
        (handleSave getId s (Except.ok n) (Except.ok (rows ++ [r]) : Except E (List C))).2,
        0))
    ∧ ((handleSaveWithResult getId s (Except.ok r : Except E C)).1 = .ok r
     ∧ handleGet getId (handleSaveWithResult getId s (Except.ok r : Except E C)).2
         (getId r) loadRes' =
       (.ok (some r), (handleSaveWithResult getId s (Except.ok r : Except E C)).2, 0)) := by
  have hsave : getCached
      (handleSave getId s (Except.ok n) (Except.ok (rows ++ [r]) : Except E (List C))).2
      (getId r) = some r := by
    simp [handleSave, update, read_all, getCached, currentTable, tableAt,
      heapAt_append_length, buildTable_append_one, lookupAL_insertAL_self]
  have hswr : getCached (handleSaveWithResult getId s (Except.ok r : Except E C)).2
      (getId r) = some r := by
    simp [handleSaveWithResult, update_one, getCached, currentTable, tableAt,
      heapAt_set_self _ _ _ hA, lookupAL_insertAL_self]
  refine ⟨⟨by simp [handleSave, update, read_all], ?_⟩,
    by simp [handleSaveWithResult], ?_⟩
  · simp [handleGet, hsave]
  · simp [handleGet, hswr]

/-- Witness for C6 at a concrete in-range state. -/
theorem C6_write_visibility_witness :
    (0 : Nat) < 1
    ∧ handleGet (fun n : Nat => n)
        (handleSave (fun n : Nat => n) ⟨[[]], 0, true⟩ (Except.ok 1)
          (Except.ok ([] ++ [5]) : Except Unit (List Nat))).2
        5 (Except.error ()) =
      (.ok (some 5),
       (handleSave (fun n : Nat => n) ⟨[[]], 0, true⟩ (Except.ok 1)
          (Except.ok ([] ++ [5]) : Except Unit (List Nat))).2, 0) :=
  ⟨by decide,
   (C6_write_visibility (fun n => n) ⟨[[]], 0, true⟩ [] 5 1 (by decide)
      (Except.error ()) (Except.error ())).1.2⟩

/-- C7 (confirmed): one firing of the periodic refresh.  The handler's return
carries no error channel; a failing load leaves the state exactly as it was, a
successful load replaces the cache with a fresh allocation of the newly built
table and touches nothing else, and in both cases the next firing is scheduled
after the same fixed 60-second interval. -/
theorem C7_timer_never_stops (getId : C → Id) (s : ActorState Id C)
    (loadRes : Except E (List C)) (e : E) (rows : List C) :
    (timer_update getId s loadRes).2 = 60
    ∧ timer_update getId s (Except.error e : Except E (List C)) = (s, 60)
    ∧ timer_update getId s (Except.ok rows : Except E (List C)) =
        ({ s with heap := s.heap ++ [buildTable getId rows],
                  cacheAddr := s.heap.length }, 60) := by
  refine ⟨?_, by simp [timer_update, update, read_all], by simp [timer_update, update, read_all]⟩
  rcases loadRes with e' | rows' <;> simp [timer_update, update, read_all]

/-- C8 (confirmed): two GetAll calls with no intervening writes, against a
deterministic unchanged store (the same load response both times), that both
return handles see equal tables through those handles. -/
theorem C8_getall_idempotent (getId : C → Id) (s : ActorState Id C)
    (loadRes : Except E (List C)) (r1 r2 : Nat) (s1 s2 : ActorState Id C)
    (h1 : handleGetAll getId s loadRes = (.ok r1, s1))
    (h2 : handleGetAll getId s1 loadRes = (.ok r2, s2)) :
    tableAt s1 r1 = tableAt s2 r2 := by
  by_cases hv : s.is_valid
  · simp [handleGetAll, hv] at h1
    obtain ⟨rfl, rfl⟩ := h1
    simp [handleGetAll, hv] at h2
    obtain ⟨rfl, rfl⟩ := h2
    rfl
  · rcases loadRes with e | rows
    · simp [handleGetAll, hv, update, read_all] at h1
    · simp [handleGetAll, hv, update, read_all] at h1
      obtain ⟨rfl, rfl⟩ := h1
      simp [handleGetAll, hv, update, read_all] at h2
      obtain ⟨rfl, rfl⟩ := h2
      simp [tableAt, heapAt_append_length]
      rw [show s.heap ++ [buildTable getId rows, buildTable getId rows]
            = (s.heap ++ [buildTable getId rows]) ++ [buildTable getId rows] by simp,
          show s.heap.length + 1 = (s.heap ++ [buildTable getId rows]).length by simp,
          heapAt_append_length]

/-- Witness for C8: a stale state against a one-row store; both calls reload
and both handles see the same one-row table. -/
theorem C8_getall_idempotent_witness :
    tableAt (⟨[[], [(5, 5)]], 1, false⟩ : ActorState Nat Nat) 1 =
      tableAt (⟨[[], [(5, 5)], [(5, 5)]], 2, false⟩ : ActorState Nat Nat) 2 :=
  C8_getall_idempotent (fun n => n) ⟨[[]], 0, false⟩
    (Except.ok [5] : Except Unit (List Nat)) 1 2
    ⟨[[], [(5, 5)]], 1, false⟩ ⟨[[], [(5, 5)], [(5, 5)]], 2, false⟩ rfl rfl

omit [DecidableEq Id] in
theorem set_out_of_range (l : List (List (Id × C))) (n : Nat) (x : List (Id × C))
    (h : l.length ≤ n) : l.set n x = l := by
  induction l generalizing n with
  | nil => rfl
  | cons t rest ih =>
    cases n with
    | zero => exact absurd h (Nat.not_succ_le_zero _)
    | succ m => simp [List.set, ih m (Nat.le_of_succ_le_succ h)]

/-- A state whose current allocation holds a freshly reloaded table has every
entry keyed by its own id. -/
theorem keyed_reload_state (getId : C → Id) (h0 : List (List (Id × C))) (b : Bool)
    (rows : List C) :
    ∀ p ∈ currentTable
      (⟨h0 ++ [buildTable getId rows], h0.length, b⟩ : ActorState Id C),
      getId p.2 = p.1 := by
  intro p hp
  simp only [currentTable, tableAt] at hp
  rw [heapAt_append_length] at hp
  exact buildTable_keyed getId rows p hp

/-- `update_one` with a row keyed under its own id preserves the keying
invariant of the current table. -/
theorem keyed_update_one (getId : C → Id) (s : ActorState Id C) (v : C)
    (h : ∀ p ∈ currentTable s, getId p.2 = p.1) :
    ∀ p ∈ currentTable (update_one s (getId v) v).2, getId p.2 = p.1 := by
  intro p hp
  by_cases hA : s.cacheAddr < s.heap.length
  · simp only [update_one, currentTable, tableAt] at hp
    rw [heapAt_set_self _ _ _ hA] at hp
    rcases mem_insertAL _ _ _ _ hp with h' | h'
    · subst h'; rfl
    · exact h p h'
  · simp only [update_one, currentTable, tableAt,
      set_out_of_range _ _ _ (Nat.le_of_not_lt hA)] at hp
    exact h p hp

/-- Reachable actor states: produced by the constructor and closed under the
four message handlers and the timer callback, for every possible store
response at every step. -/
inductive Reachable (E : Type) (getId : C → Id) : ActorState Id C → Prop where
  | init (loadRes : Except E (List C)) (s : ActorState Id C) :
      new getId loadRes = .ok s → Reachable E getId s
  | stepGetAll (s s' : ActorState Id C) (loadRes : Except E (List C))
      (r : Except E Nat) :
      Reachable E getId s → handleGetAll getId s loadRes = (r, s') →
      Reachable E getId s'
  | stepSave (s s' : ActorState Id C) (ins : Except E Nat)
      (loadRes : Except E (List C)) (r : Except E Unit) :
      Reachable E getId s → handleSave getId s ins loadRes = (r, s') →
      Reachable E getId s'
  | stepSaveWithResult (s s' : ActorState Id C) (res r : Except E C) :
      Reachable E getId s → handleSaveWithResult getId s res = (r, s') →
      Reachable E getId s'
  | stepGet (s s' : ActorState Id C) (i : Id) (loadRes : Except E (List C))
      (r : Except E (Option C)) (k : Nat) :
      Reachable E getId s → handleGet getId s i loadRes = (r, s', k) →
      Reachable E getId s'
  | stepTimer (s s' : ActorState Id C) (loadRes : Except E (List C)) (d : Nat) :
      Reachable E getId s → timer_update getId s loadRes = (s', d) →
      Reachable E getId s'

/-- C9 (confirmed): in every reachable actor state, every entry `(k, v)` of
the cache table satisfies `get_id v = k`: construction and every full reload
key each loaded row under its own id, and SaveWithResult's upsert inserts the
returned row under that row's id; no operation inserts under any other key. -/
theorem C9_cache_keyed_by_own_id (E : Type) (getId : C → Id) (s : ActorState Id C)
    (h : Reachable E getId s) :
    ∀ p ∈ currentTable s, getId p.2 = p.1 := by
  induction h with
  | init loadRes s h =>
    rcases loadRes with e | rows
    · simp [new, update, read_all] at h
    · simp only [new, update, read_all] at h
      rw [Except.ok.injEq] at h
      subst h
      exact keyed_reload_state getId _ _ rows
  | stepGetAll s s' loadRes r hre hstep ih =>
    by_cases hv : s.is_valid
    · simp [handleGetAll, hv] at hstep
      obtain ⟨-, rfl⟩ := hstep
      exact ih
    · rcases loadRes with e | rows
      · simp [handleGetAll, hv, update, read_all] at hstep
        obtain ⟨-, rfl⟩ := hstep
        exact ih
      · simp [handleGetAll, hv, update, read_all] at hstep
        obtain ⟨-, rfl⟩ := hstep
        exact keyed_reload_state getId _ _ rows
  | stepSave s s' ins loadRes r hre hstep ih =>
    rcases ins with e | n
    · simp [handleSave] at hstep
      obtain ⟨-, rfl⟩ := hstep
      simpa [currentTable, tableAt] using ih
    · rcases loadRes with e | rows
      · simp [handleSave, update, read_all] at hstep
        obtain ⟨-, rfl⟩ := hstep
        simpa [currentTable, tableAt] using ih
      · simp [handleSave, update, read_all] at hstep
        obtain ⟨-, rfl⟩ := hstep
        exact keyed_reload_state getId _ _ rows
  | stepSaveWithResult s s' res r hre hstep ih =>
    rcases res with e | row
    · simp [handleSaveWithResult] at hstep
      obtain ⟨-, rfl⟩ := hstep
      exact ih
    · simp [handleSaveWithResult] at hstep
      obtain ⟨-, rfl⟩ := hstep
      exact keyed_update_one getId s row ih
  | stepGet s s' i loadRes r k hre hstep ih =>
    rcases hci : getCached s i with - | c
    · rcases loadRes with e | rows
      · simp [handleGet, hci, update, read_all] at hstep
        obtain ⟨-, rfl, -⟩ := hstep
        exact ih
      · simp [handleGet, hci, update, read_all] at hstep
        obtain ⟨-, rfl, -⟩ := hstep
        exact keyed_reload_state getId _ _ rows
    · simp [handleGet, hci] at hstep
      obtain ⟨-, rfl, -⟩ := hstep
      exact ih
  | stepTimer s s' loadRes d hre hstep ih =>
    rcases loadRes with e | rows
    · simp [timer_update, update, read_all] at hstep
      obtain ⟨rfl, -⟩ := hstep
      exact ih
    · simp [timer_update, update, read_all] at hstep
      obtain ⟨rfl, -⟩ := hstep
      exact keyed_reload_state getId _ _ rows

/-- Witness for C9: a state reached by constructing the actor over a one-row
store with `get_id = (· + 1)`; the row 5 is keyed under 6. -/
theorem C9_cache_keyed_by_own_id_witness :
    Reachable Unit (fun n : Nat => n + 1) ⟨[[], [(6, 5)]], 1, true⟩
    ∧ 5 + 1 = 6 :=
  ⟨Reachable.init (Except.ok [5]) _ (by rfl),
   C9_cache_keyed_by_own_id Unit (fun n => n + 1) ⟨[[], [(6, 5)]], 1, true⟩
     (Reachable.init (Except.ok [5]) _ (by rfl)) (6, 5) (by decide)⟩

/-- C10 (confirmed): a full reload installs a brand-new allocation — the new
cache address is fresh (distinct from every previously allocated handle) and
the table any earlier handle sees is unchanged by the reload; the only
in-place mutation is `update_one` (SaveWithResult's upsert), which touches
only the allocation the actor's cache field currently points at and leaves
every other handle's table unchanged. -/
theorem C10_reload_fresh_allocation (getId : C → Id) (s : ActorState Id C)
    (rows : List C) (a : Nat) (i : Id) (v : C) (hA : a < s.heap.length) :
    update getId s (Except.ok rows : Except E (List C)) =
        .ok { s with heap := s.heap ++ [buildTable getId rows],
                     cacheAddr := s.heap.length }
    ∧ a ≠ s.heap.length
    ∧ tableAt { s with heap := s.heap ++ [buildTable getId rows],
                       cacheAddr := s.heap.length } a = tableAt s a
    ∧ (a ≠ s.cacheAddr → tableAt (update_one s i v).2 a = tableAt s a)
    ∧ (s.cacheAddr < s.heap.length →
        tableAt (update_one s i v).2 s.cacheAddr = insertAL i v (currentTable s)) := by
  refine ⟨by simp [update, read_all], Nat.ne_of_lt hA, ?_, ?_, ?_⟩
  · simp only [tableAt]
    exact heapAt_append_lt _ _ _ hA
  · intro hne
    simp only [update_one, tableAt]
    exact heapAt_set_ne _ _ _ _ hne
  · intro hc
    simp only [update_one, tableAt, currentTable]
    exact heapAt_set_self _ _ _ hc

/-- Witness for C10: the handle on allocation 0 is untouched by an upsert
into the current allocation 1. -/
theorem C10_reload_fresh_allocation_witness :
    (0 : Nat) < 2
    ∧ tableAt (update_one (⟨[[(1, 10)], [(2, 20)]], 1, true⟩ : ActorState Nat Nat) 3 30).2 0
        = tableAt (⟨[[(1, 10)], [(2, 20)]], 1, true⟩ : ActorState Nat Nat) 0 :=
  ⟨by decide,
   (@C10_reload_fresh_allocation Nat Nat Unit _ (fun n => n)
      ⟨[[(1, 10)], [(2, 20)]], 1, true⟩ [7] 0 3 30 (by decide)).2.2.2.1 (by decide)⟩

end ActixDieselCache
